import Mathlib

/-
Verification of the Spatial Dominance Engine of project_kick.

Shallow embedding over exact rationals of:
  - StandardPitch.wyscout_to_meters / to_coord / wyscout_to_manim
    (football_animations/pitch_utils.py, coordinates are 2D throughout since
    the source's third Manim coordinate is identically 0),
  - StandardPitch._clip_poly_halfspace_2d and StandardPitch.get_voronoi_cells,
  - convert_and_separate (football_models/model_utils/hawkeye_data_loader.py),
  - VoronoiManager.get_frame_data / run_animation (football_animations/voronoi_helper.py),
  - the pitch-control logistic transform
    (football_models/movement/pitch_control_plot_helper.py),
and spec-side definitions used to state refinement claims.

Numeric comparisons of the source (numpy floats) are embedded as exact rational
comparisons; np.linalg.norm(n) < 1e-7 is embedded as the equivalent squared
comparison dot(n, n) < (1e-7)^2, since both sides are nonnegative.
-/

/-- Planar point or vector, a pair of rationals. -/
abbrev Vec2 := ℚ × ℚ

/-- Dot product of 2D vectors, the np.dot of the source on z-0 data. -/
def dot2 (a b : Vec2) : ℚ := a.1 * b.1 + a.2 * b.2

/-- Componentwise difference of 2D points. -/
def vsub (a b : Vec2) : Vec2 := (a.1 - b.1, a.2 - b.2)

/-- Componentwise sum of 2D points. -/
def vadd (a b : Vec2) : Vec2 := (a.1 + b.1, a.2 + b.2)

/-- Scalar multiple of a 2D vector. -/
def vsmul (t : ℚ) (a : Vec2) : Vec2 := (t * a.1, t * a.2)

/-- Cross product (z-component) of 2D vectors. -/
def cross2 (u v : Vec2) : ℚ := u.1 * v.2 - u.2 * v.1

/-- Squared euclidean distance between 2D points. -/
def distSq (a b : Vec2) : ℚ := dot2 (vsub a b) (vsub a b)

/-- Inside test of _clip_poly_halfspace_2d: dot(n, p) <= c + eps. -/
abbrev insideH (n : Vec2) (c eps : ℚ) (p : Vec2) : Prop := dot2 n p ≤ c + eps

/-- Default eps of _clip_poly_halfspace_2d (the Python default argument eps=1e-9). -/
def defaultEps : ℚ := 1 / 10 ^ 9

/-- Loop body of _clip_poly_halfspace_2d: walk the vertices with the running
previous vertex; on an inside/outside disagreement insert the interpolated
crossing point provided abs(denom) > 1e-12; keep the current vertex when it is
inside.  The source updates prev_in from the stored flag of the previous
iteration, which always equals the recomputed inside test used here. -/
def clipWalk (n : Vec2) (c eps : ℚ) : Vec2 → List Vec2 → List Vec2
  | _, [] => []
  | prev, cur :: rest =>
    (if ¬ (insideH n c eps cur ↔ insideH n c eps prev) then
        (if 1 / 10 ^ 12 < |dot2 n (vsub cur prev)| then
            [vadd prev (vsmul ((c - dot2 n prev) / dot2 n (vsub cur prev)) (vsub cur prev))]
          else [])
      else [])
    ++ (if insideH n c eps cur then [cur] else [])
    ++ clipWalk n c eps cur rest

/-- Embedding of StandardPitch._clip_poly_halfspace_2d: empty polygon maps to
the empty list; otherwise the walk starts with prev = poly[-1]. -/
def clipPolyHalfspace (poly : List Vec2) (n : Vec2) (c eps : ℚ) : List Vec2 :=
  match poly.getLast? with
  | none => []
  | some pLast => clipWalk n c eps pLast poly

/-- The cyclically consecutive (previous, current) vertex pairs visited by the
clip walk: (poly[-1], poly[0]), (poly[0], poly[1]), ..., for a nonempty poly. -/
def clipPairs (poly : List Vec2) : List (Vec2 × Vec2) :=
  match poly.getLast? with
  | none => []
  | some pLast => (pLast :: poly).zip poly

/-- Spec-side emission for one (previous, current) pair, with the 1e-12
denominator guard on the inserted crossing point. -/
def clipStepSpec (n : Vec2) (c eps : ℚ) (pc : Vec2 × Vec2) : List Vec2 :=
  (if ¬ (insideH n c eps pc.2 ↔ insideH n c eps pc.1) then
      (if 1 / 10 ^ 12 < |dot2 n (vsub pc.2 pc.1)| then
          [vadd pc.1 (vsmul ((c - dot2 n pc.1) / dot2 n (vsub pc.2 pc.1)) (vsub pc.2 pc.1))]
        else [])
    else [])
  ++ (if insideH n c eps pc.2 then [pc.2] else [])

/-- Spec-side clip, amended form: inside vertices are kept in traversal order
and a crossing point is inserted at every disagreement whose denominator
exceeds 1e-12 in absolute value. -/
def specClipGuarded (poly : List Vec2) (n : Vec2) (c eps : ℚ) : List Vec2 :=
  (clipPairs poly).flatMap (clipStepSpec n c eps)

/-- Spec-side emission written from the words of claim C3: a linearly
interpolated crossing point is inserted at EVERY consecutive inside/outside
disagreement, with no guard on the denominator. -/
def clipStepAll (n : Vec2) (c eps : ℚ) (pc : Vec2 × Vec2) : List Vec2 :=
  (if ¬ (insideH n c eps pc.2 ↔ insideH n c eps pc.1) then
      [vadd pc.1 (vsmul ((c - dot2 n pc.1) / dot2 n (vsub pc.2 pc.1)) (vsub pc.2 pc.1))]
    else [])
  ++ (if insideH n c eps pc.2 then [pc.2] else [])

/-- Clip as literally described by claim C3 (insertion at every disagreement). -/
def specClipAll (poly : List Vec2) (n : Vec2) (c eps : ℚ) : List Vec2 :=
  (clipPairs poly).flatMap (clipStepAll n c eps)

/-- A vertex list traversed counterclockwise bounds a convex region: every
cyclically consecutive vertex triple turns left or is collinear. -/
def convexCCW (l : List Vec2) : Prop :=
  ∀ t ∈ (l.zip (l.rotate 1)).zip (l.rotate 2),
    0 ≤ cross2 (vsub t.1.2 t.1.1) (vsub t.2 t.1.2)

/-- Convexity of a vertex list in either traversal orientation. -/
def convexPoly (l : List Vec2) : Prop := convexCCW l ∨ convexCCW l.reverse

/-- Shoelace signed area of a vertex list (positive for counterclockwise). -/
def polySignedArea (l : List Vec2) : ℚ :=
  ((l.zip (l.rotate 1)).map (fun pq => cross2 pq.1 pq.2)).sum / 2

/-- Geometry parameters of StandardPitch.__init__: the scale and orientation
constructor arguments and the FIFA dims constants (length 105, width 68). -/
structure PitchConfig where
  scale : ℚ
  horizontal : Bool
  length : ℚ
  width : ℚ

/-- StandardPitch with the source's hardcoded dims and a given scale/orientation. -/
def stdPitch (scale : ℚ) (horizontal : Bool) : PitchConfig :=
  ⟨scale, horizontal, 105, 68⟩

/-- Embedding of StandardPitch.wyscout_to_meters. -/
def wyscoutToMeters (cfg : PitchConfig) (x y : ℚ) : Vec2 :=
  ((x / 100 - 1 / 2) * cfg.length, (1 / 2 - y / 100) * cfg.width)

/-- Embedding of StandardPitch.to_coord (third coordinate 0 dropped). -/
def toCoord (cfg : PitchConfig) (p : Vec2) : Vec2 :=
  if cfg.horizontal then (p.1 * cfg.scale, p.2 * cfg.scale)
  else (-p.2 * cfg.scale, p.1 * cfg.scale)

/-- Embedding of StandardPitch.wyscout_to_manim. -/
def wyscoutToManim (cfg : PitchConfig) (x y : ℚ) : Vec2 :=
  toCoord cfg (wyscoutToMeters cfg x y)

/-- The base_poly boundary rectangle of get_voronoi_cells. -/
def basePolyOf (cfg : PitchConfig) : List Vec2 :=
  let l := cfg.length * cfg.scale
  let w := cfg.width * cfg.scale
  if cfg.horizontal then [(-l / 2, -w / 2), (l / 2, -w / 2), (l / 2, w / 2), (-l / 2, w / 2)]
  else [(-w / 2, -l / 2), (w / 2, -l / 2), (w / 2, l / 2), (-w / 2, l / 2)]

/-- Embedding of StandardPitch.get_voronoi_cells: convert the Wyscout sites,
then for each site index i fold the bisector clips over all indices j,
skipping j = i and sites within distance 1e-7 of site i. -/
def getVoronoiCells (cfg : PitchConfig) (ptsWs : List Vec2) : List (List Vec2) :=
  let pts := ptsWs.map (fun p => wyscoutToManim cfg p.1 p.2)
  pts.enum.map (fun ip =>
    pts.enum.foldl (fun cell jp =>
      if ip.1 = jp.1 then cell
      else
        if dot2 (vsub jp.2 ip.2) (vsub jp.2 ip.2) < (1 / 10 ^ 7) ^ 2 then cell
        else
          clipPolyHalfspace cell (vsub jp.2 ip.2)
            (dot2 (vsub jp.2 ip.2) (vsmul (1 / 2) (vadd ip.2 jp.2))) defaultEps)
      (basePolyOf cfg))

/-- Spec-side cell construction written from the words of claim C1: start from
the boundary and, for every other site pj in order, clip against the bisector
half-plane dot(n, x) <= dot(n, midpoint) with n = pj - pi, skipping any pj
within distance 1e-7 of pi. -/
def voronoiCellClaim (pi_ : Vec2) (others : List Vec2) (boundary : List Vec2) : List Vec2 :=
  others.foldl (fun cell pj =>
    if dot2 (vsub pj pi_) (vsub pj pi_) < (1 / 10 ^ 7) ^ 2 then cell
    else
      clipPolyHalfspace cell (vsub pj pi_)
        (dot2 (vsub pj pi_) (vsmul (1 / 2) (vadd pi_ pj))) defaultEps) boundary

/-- Embedding of the pandas Series.clip(0, 100) used by convert_and_separate. -/
def clip01 (x : ℚ) : ℚ := min (max x 0) 100

/-- The x rescale of convert_and_separate: ((player_x / pitch_length) + 0.5) * 100. -/
def hawkeyeWsX (pitchLength x : ℚ) : ℚ := (x / pitchLength + 1 / 2) * 100

/-- The y rescale of convert_and_separate: (1 - ((player_y / pitch_width) + 0.5)) * 100. -/
def hawkeyeWsY (pitchWidth y : ℚ) : ℚ := (1 - (y / pitchWidth + 1 / 2)) * 100

/-- The flip mask of convert_and_separate: home rows flip in half 2, away rows
flip in half 1. -/
def flipFlag (isHome : Bool) (half : ℤ) : Bool :=
  if isHome then half == 2 else half == 1

/-- Embedding of the per-row coordinate transform of the conversion branch of
convert_and_separate: rescale to the 0-100 convention, invert both coordinates
when the flip mask holds, then clip to the range 0-100. -/
def hawkeyeConvertRow (pitchLength pitchWidth : ℚ) (isHome : Bool) (half : ℤ)
    (x y : ℚ) : ℚ × ℚ :=
  let x1 := hawkeyeWsX pitchLength x
  let y1 := hawkeyeWsY pitchWidth y
  let x2 := if flipFlag isHome half then 100 - x1 else x1
  let y2 := if flipFlag isHome half then 100 - y1 else y1
  (clip01 x2, clip01 y2)

/-- A tracking row of VoronoiManager.get_frame_data: the team string and the
data consumed by the loop (row.player is modelled as always present, matching
the row.get default only in that a value is produced). -/
structure TRow where
  team : String
  player : ℤ
  x : ℚ
  y : ℚ

/-- A player entry produced by get_frame_data (the color field is omitted: it
is a pure function of the stored team string). -/
structure PlayerRec where
  team : String
  player : ℤ
  pos : Vec2

/-- Boolean form of the player classification of get_frame_data. -/
def isTeamRow (r : TRow) : Bool :=
  (r.team.trim.toLower == "attack") || (r.team.trim.toLower == "defense")

/-- Embedding of VoronoiManager.get_frame_data: rows whose stripped, lowercased
team is attack or defense are appended to the player list; every other row
overwrites the ball position. -/
def getFrameData (rows : List TRow) : List PlayerRec × Option Vec2 :=
  rows.foldl
    (fun acc r =>
      if r.team.trim.toLower = "attack" ∨ r.team.trim.toLower = "defense" then
        (acc.1 ++ [⟨r.team.trim.toLower, r.player, (r.x, r.y)⟩], acc.2)
      else (acc.1, some (r.x, r.y)))
    ([], none)

/-- The player record built by get_frame_data from one team row. -/
def mkPlayer (r : TRow) : PlayerRec := ⟨r.team.trim.toLower, r.player, (r.x, r.y)⟩

/-- The ball position taken by get_frame_data from one non-team row. -/
def ballOf (r : TRow) : Vec2 := (r.x, r.y)

/-- The dictionary key (team, id) used for player_dots. -/
def dotsKey (p : PlayerRec) : String × ℤ := (p.team, p.player)

/-- Embedding of the player_dots maintenance of one frame of
VoronoiManager.run_animation (lines 133-141): for each player of the frame, an
existing key only moves its dot, a missing key registers a new dot.  The
dictionary is modelled by its key list in insertion order. -/
def processFrame (dots : List (String × ℤ)) (players : List PlayerRec) : List (String × ℤ) :=
  players.foldl (fun m p => if dotsKey p ∈ m then m else m ++ [dotsKey p]) dots

/-- The player_dots key set across the frame loop of run_animation. -/
def runAnimation (dots : List (String × ℤ)) (frames : List (List PlayerRec)) :
    List (String × ℤ) :=
  frames.foldl processFrame dots

/-- The control probability of generate_pitch_control_map (line 109) and
plot_pc_vs_q (line 174): the logistic transform of the home-minus-away
influence differential at one query point. -/
noncomputable def controlProb (h a : ℝ) : ℝ := 1 / (1 + Real.exp (-(h - a)))

/-- Modelled from the spec: compute_influence_func is a caller-supplied
parameter of generate_pitch_control_map and is not part of the repository
sources; spec section 4.3 prescribes per-player influence values in the range
0 to 1 aggregated per team by maximum, so an empty team aggregates to 0. -/
def teamInfluence {α : Type} (f : α → Vec2 → Vec2 → ℝ) (players : List α)
    (q ball : Vec2) : ℝ :=
  (players.map (fun pl => f pl q ball)).foldr max 0

/-- The clip walk from a given previous vertex is the concatenation of the
per-pair emissions over consecutive (previous, current) pairs. -/
theorem clipWalk_eq_flatMap (n : Vec2) (c eps : ℚ) :
    ∀ (l : List Vec2) (prev : Vec2),
      clipWalk n c eps prev l = ((prev :: l).zip l).flatMap (clipStepSpec n c eps) := by
  intro l
  induction l with
  | nil => intro prev; rfl
  | cons a l ih =>
    intro prev
    simp only [clipWalk, List.zip_cons_cons, List.flatMap_cons, ih a, clipStepSpec,
      List.append_assoc]

/-- Length of the clip walk: one kept vertex per inside vertex plus one
inserted vertex per disagreeing pair passing the 1e-12 denominator guard. -/
theorem clipWalk_length (n : Vec2) (c eps : ℚ) :
    ∀ (l : List Vec2) (prev : Vec2),
      (clipWalk n c eps prev l).length
        = l.countP (fun v => decide (insideH n c eps v))
          + ((prev :: l).zip l).countP (fun pc =>
              decide ((¬ (insideH n c eps pc.2 ↔ insideH n c eps pc.1))
                      ∧ 1 / 10 ^ 12 < |dot2 n (vsub pc.2 pc.1)|)) := by
  intro l
  induction l with
  | nil => intro prev; rfl
  | cons a l ih =>
    intro prev
    simp only [clipWalk, List.length_append, ih a, List.zip_cons_cons, List.countP_cons]
    by_cases h0 : insideH n c eps prev <;>
      by_cases h3 : insideH n c eps a <;>
      by_cases h2 : ((10 : ℚ) ^ 12)⁻¹ < |dot2 n (vsub a prev)| <;>
      simp [h0, h2, h3, one_div] <;> omega

/-- Folding over an indexed list while skipping an index below the start index
skips nothing. -/
theorem foldl_enumFrom_of_lt {α β : Type} (g : β → α → β) (i : ℕ) :
    ∀ (l : List α) (k : ℕ) (init : β), i < k →
      (List.enumFrom k l).foldl
          (fun acc jp => if i = jp.1 then acc else g acc jp.2) init
        = l.foldl g init := by
  intro l
  induction l with
  | nil => intros; rfl
  | cons a l ih =>
    intro k init hik
    simp only [List.enumFrom_cons, List.foldl_cons]
    rw [if_neg (by omega)]
    exact ih (k + 1) (g init a) (by omega)

/-- Folding over an indexed list while skipping index i is the fold over the
list with the element at position i - k removed. -/
theorem foldl_enumFrom_skip {α β : Type} (g : β → α → β) (i : ℕ) :
    ∀ (l : List α) (k : ℕ) (init : β), k ≤ i →
      (List.enumFrom k l).foldl
          (fun acc jp => if i = jp.1 then acc else g acc jp.2) init
        = (l.eraseIdx (i - k)).foldl g init := by
  intro l
  induction l with
  | nil => intros; rfl
  | cons a l ih =>
    intro k init hki
    simp only [List.enumFrom_cons, List.foldl_cons]
    by_cases hik : i = k
    · rw [if_pos hik]
      have h0 : i - k = 0 := by omega
      rw [h0, List.eraseIdx_cons_zero]
      exact foldl_enumFrom_of_lt g i l (k + 1) init (by omega)
    · rw [if_neg hik]
      have h1 : i - k = (i - (k + 1)) + 1 := by omega
      rw [h1, List.eraseIdx_cons_succ, List.foldl_cons]
      exact ih (k + 1) (g init a) (by omega)

/-- Claim C1: get_voronoi_cells computes, for each site i, the cell obtained by
starting from the boundary rectangle and clipping, for every other site j in
order, against the half-plane with normal n = site_j - site_i and constraint
dot(n, point) <= dot(n, midpoint of site_i and site_j); any site j within
distance 1e-7 of site i is skipped entirely, so a coincident duplicate never
constrains the cell and no zero-normal bisector is formed. -/
theorem getVoronoiCells_eq_claim (cfg : PitchConfig) (ptsWs : List Vec2) :
    getVoronoiCells cfg ptsWs
      = (ptsWs.map (fun p => wyscoutToManim cfg p.1 p.2)).enum.map
          (fun ip =>
            voronoiCellClaim ip.2
              ((ptsWs.map (fun p => wyscoutToManim cfg p.1 p.2)).eraseIdx ip.1)
              (basePolyOf cfg)) := by
  unfold getVoronoiCells
  apply List.map_congr_left
  intro ip _
  unfold voronoiCellClaim
  have h := foldl_enumFrom_skip
    (fun cell pj =>
      if dot2 (vsub pj ip.2) (vsub pj ip.2) < (1 / 10 ^ 7) ^ 2 then cell
      else
        clipPolyHalfspace cell (vsub pj ip.2)
          (dot2 (vsub pj ip.2) (vsmul (1 / 2) (vadd ip.2 pj))) defaultEps)
    ip.1 (ptsWs.map (fun p => wyscoutToManim cfg p.1 p.2)) 0 (basePolyOf cfg)
    (Nat.zero_le _)
  simpa [List.enum] using h

/-- Claim C3 (amended): _clip_poly_halfspace_2d walks the vertices in order
and, for each cyclically consecutive (previous, current) pair, inserts the
linearly interpolated edge-plane crossing point exactly when the two vertices
disagree on the inside test AND the denominator dot(n, cur - prev) exceeds
1e-12 in absolute value, then keeps the current vertex exactly when
dot(n, cur) <= c + eps, preserving input traversal order; convexity of the
output is NOT guaranteed (see the counterexample). -/
theorem clipPolyHalfspace_eq_specClipGuarded (poly : List Vec2) (n : Vec2) (c eps : ℚ) :
    clipPolyHalfspace poly n c eps = specClipGuarded poly n c eps := by
  cases h : poly.getLast? with
  | none => simp [clipPolyHalfspace, specClipGuarded, clipPairs, h]
  | some pLast =>
    simp only [clipPolyHalfspace, specClipGuarded, clipPairs, h]
    exact clipWalk_eq_flatMap n c eps poly pLast

/-- Claim C3 counterexample: for the strictly convex input triangle with first
vertex (10 + 5e-10, 0) lying within the eps tolerance band of the plane
dot((1,0), p) = 10, the clip output is not convex in either orientation (the
interpolated crossing point lands outside the clipped edge because the
tolerance-kept vertex is on the outer side of the exact plane); moreover for
the triangle with edge denominator exactly 1e-12 the code inserts no crossing
point at a disagreeing pair, unlike the claim's unguarded description. -/
theorem clip_convexity_counterexample :
    convexPoly [((20000000001 : ℚ) / 2000000000, 0), (30, 5), (0, 10)]
  ∧ ¬ convexPoly (clipPolyHalfspace
        [((20000000001 : ℚ) / 2000000000, 0), (30, 5), (0, 10)] (1, 0) 10 defaultEps)
  ∧ clipPolyHalfspace [((1 : ℚ) / 10 ^ 9, 0), (1 / 10 ^ 9 + 1 / 10 ^ 12, 1), (-1, 0)]
        (1, 0) 0 defaultEps
      ≠ specClipAll [((1 : ℚ) / 10 ^ 9, 0), (1 / 10 ^ 9 + 1 / 10 ^ 12, 1), (-1, 0)]
        (1, 0) 0 defaultEps := by
  refine ⟨Or.inl ?_, ?_, ?_⟩
  · unfold convexCCW
    norm_num [List.rotate, cross2, vsub]
  · have hout : clipPolyHalfspace
        [((20000000001 : ℚ) / 2000000000, 0), (30, 5), (0, 10)] (1, 0) 10 defaultEps
        = [((20000000001 : ℚ) / 2000000000, 0), (10, -5 / 39999999999),
           (10, 25 / 3), (0, 10)] := by
      norm_num [clipPolyHalfspace, clipWalk, insideH, dot2, vsub, vadd, vsmul, defaultEps,
        abs_of_pos, abs_of_neg]
    rw [hout]
    rintro (h | h)
    · have hb := h ((((20000000001 : ℚ) / 2000000000, 0), (10, -5 / 39999999999)),
        (10, 25 / 3)) (by norm_num [List.rotate])
      norm_num [cross2, vsub] at hb
    · have hb := h ((((0 : ℚ), (10 : ℚ)), (10, (25 : ℚ) / 3)),
        (10, -5 / 39999999999)) (by norm_num [List.rotate])
      norm_num [cross2, vsub] at hb
  · have e1 : (clipPolyHalfspace [((1 : ℚ) / 10 ^ 9, 0), (1 / 10 ^ 9 + 1 / 10 ^ 12, 1), (-1, 0)]
        (1, 0) 0 defaultEps).length = 3 := by
      norm_num [clipPolyHalfspace, clipWalk, insideH, dot2, vsub, vadd, vsmul, defaultEps,
        abs_of_pos, abs_of_neg]
    have e2 : (specClipAll [((1 : ℚ) / 10 ^ 9, 0), (1 / 10 ^ 9 + 1 / 10 ^ 12, 1), (-1, 0)]
        (1, 0) 0 defaultEps).length = 4 := by
      norm_num [specClipAll, clipPairs, clipStepAll, insideH, dot2, vsub, vadd, vsmul,
        defaultEps, abs_of_pos, abs_of_neg]
    intro h
    rw [h, e2] at e1
    norm_num at e1

/-- Claim C10: _clip_poly_halfspace_2d is total: an empty polygon returns the
empty list, and the output length is the number of inside vertices plus the
number of disagreeing consecutive pairs whose denominator exceeds 1e-12 in
absolute value, so a crossing whose denominator has absolute value at most
1e-12 inserts no vertex and no division by a near-zero denominator occurs. -/
theorem clipPolyHalfspace_total_and_guarded :
    (∀ (n : Vec2) (c eps : ℚ), clipPolyHalfspace [] n c eps = [])
  ∧ ∀ (poly : List Vec2) (n : Vec2) (c eps : ℚ),
      (clipPolyHalfspace poly n c eps).length
        = poly.countP (fun v => decide (insideH n c eps v))
          + (clipPairs poly).countP (fun pc =>
              decide ((¬ (insideH n c eps pc.2 ↔ insideH n c eps pc.1))
                      ∧ 1 / 10 ^ 12 < |dot2 n (vsub pc.2 pc.1)|)) := by
  constructor
  · intro n c eps; rfl
  · intro poly n c eps
    cases h : poly.getLast? with
    | none =>
      have : poly = [] := by
        cases poly with
        | nil => rfl
        | cons a l => simp [List.getLast?_cons] at h
      subst this
      rfl
    | some pLast =>
      simp only [clipPolyHalfspace, clipPairs, h]
      exact clipWalk_length n c eps poly pLast

/-- Claim C2 counterexample: with sites at metric (0,0) and (105 - 2e-12, 0)
(scale 1, horizontal), the eps = 1e-9 tolerance keeps the whole boundary
rectangle as the cell of site 0, yet the point (52.5 - 1e-13, 0) lies strictly
inside that cell and is strictly closer to site 1 than to site 0, refuting
nearest-site correctness for points inside a cell as stated. -/
theorem voronoi_nearest_site_counterexample :
    (getVoronoiCells (stdPitch 1 true) [(50, 50), (150 - 40 / (21 * 10 ^ 12), 50)]).get? 0
        = some [(-(105 : ℚ) / 2, -34), (105 / 2, -34), (105 / 2, 34), (-(105 : ℚ) / 2, 34)]
  ∧ (-(105 : ℚ) / 2 < 105 / 2 - 1 / 10 ^ 13 ∧ (105 : ℚ) / 2 - 1 / 10 ^ 13 < 105 / 2
      ∧ (-34 : ℚ) < 0 ∧ (0 : ℚ) < 34)
  ∧ distSq ((105 : ℚ) / 2 - 1 / 10 ^ 13, 0)
        (wyscoutToManim (stdPitch 1 true) (150 - 40 / (21 * 10 ^ 12)) 50)
      < distSq ((105 : ℚ) / 2 - 1 / 10 ^ 13, 0) (wyscoutToManim (stdPitch 1 true) 50 50) := by
  refine ⟨?_, by norm_num, ?_⟩
  · norm_num [getVoronoiCells, stdPitch, wyscoutToManim, wyscoutToMeters, toCoord,
      basePolyOf, clipPolyHalfspace, clipWalk, insideH, dot2, vsub, vadd, vsmul,
      defaultEps, List.enum, List.enumFrom, List.get?, abs_of_pos, abs_of_neg]
  · norm_num [distSq, stdPitch, wyscoutToManim, wyscoutToMeters, toCoord, dot2, vsub]

/-- Claim C2 (amended): nearest-site correctness up to the eps clipping
tolerance; exactly at the claim's concrete scenario it holds exactly: for the
three collinear metric sites (-10,0), (0,0), (10,0) on the boundary rectangle
from -52.5 to 52.5 by -34 to 34 (scale 1, horizontal), the middle site's cell
is exactly the vertical strip from x = -5 to x = 5, its area is 680, and every
point of the strip is at least as close to the middle site as to either outer
site, with equality exactly on the lines x = -5 and x = 5. -/
theorem voronoi_nearest_site_amended :
    (getVoronoiCells (stdPitch 1 true) [(850 / 21, 50), (50, 50), (1250 / 21, 50)]).get? 1
        = some [(-5, -34), (5, -34), (5, 34), (-5, 34)]
  ∧ [wyscoutToManim (stdPitch 1 true) (850 / 21) 50, wyscoutToManim (stdPitch 1 true) 50 50,
      wyscoutToManim (stdPitch 1 true) (1250 / 21) 50] = [(-10, 0), (0, 0), (10, 0)]
  ∧ polySignedArea [(-5, -34), (5, -34), (5, 34), (-5, 34)] = 680
  ∧ ∀ p : Vec2, -5 ≤ p.1 → p.1 ≤ 5 → -34 ≤ p.2 → p.2 ≤ 34 →
      distSq p (0, 0) ≤ distSq p (-10, 0) ∧ distSq p (0, 0) ≤ distSq p (10, 0)
      ∧ (distSq p (0, 0) = distSq p (-10, 0) ↔ p.1 = -5)
      ∧ (distSq p (0, 0) = distSq p (10, 0) ↔ p.1 = 5) := by
  refine ⟨?_, ?_, ?_, ?_⟩
  · norm_num [getVoronoiCells, stdPitch, wyscoutToManim, wyscoutToMeters, toCoord,
      basePolyOf, clipPolyHalfspace, clipWalk, insideH, dot2, vsub, vadd, vsmul,
      defaultEps, List.enum, List.enumFrom, List.get?, abs_of_pos, abs_of_neg]
  · norm_num [stdPitch, wyscoutToManim, wyscoutToMeters, toCoord]
  · norm_num [polySignedArea, List.rotate, cross2]
  · rintro ⟨x, y⟩ h1 h2 h3 h4
    simp only [distSq, dot2, vsub] at h1 h2 h3 h4 ⊢
    refine ⟨by nlinarith, by nlinarith, ?_, ?_⟩
    · constructor
      · intro h; nlinarith
      · intro h; subst h; ring
    · constructor
      · intro h; nlinarith
      · intro h; subst h; ring

/-- Witness for the amended claim C2 at the strip point (0, 0). -/
theorem voronoi_nearest_site_amended_w :
    ((-5 : ℚ) ≤ 0 ∧ (0 : ℚ) ≤ 5 ∧ (-34 : ℚ) ≤ 0 ∧ (0 : ℚ) ≤ 34)
  ∧ (distSq (0, 0) (0, 0) ≤ distSq (0, 0) (-10, 0)
      ∧ distSq (0, 0) (0, 0) ≤ distSq (0, 0) (10, 0)
      ∧ (distSq (0, 0) (0, 0) = distSq (0, 0) (-10, 0) ↔ (0 : ℚ) = -5)
      ∧ (distSq (0, 0) (0, 0) = distSq (0, 0) (10, 0) ↔ (0 : ℚ) = 5)) :=
  ⟨by norm_num,
   voronoi_nearest_site_amended.2.2.2 (0, 0) (by norm_num) (by norm_num)
     (by norm_num) (by norm_num)⟩

/-- Claim C4: the control probability is 1 / (1 + exp(-(h - a))), always lies
strictly between 0 and 1, and is symmetric under team swap: swapping the two
influence arguments complements the probability to 1. -/
theorem controlProb_range_symmetry (h a : ℝ) :
    controlProb h a = 1 / (1 + Real.exp (-(h - a)))
  ∧ 0 < controlProb h a ∧ controlProb h a < 1
  ∧ controlProb h a + controlProb a h = 1 := by
  have e1 : (0 : ℝ) < Real.exp (-(h - a)) := Real.exp_pos _
  have e2 : (0 : ℝ) < Real.exp (-(a - h)) := Real.exp_pos _
  refine ⟨rfl, by unfold controlProb; positivity, ?_, ?_⟩
  · unfold controlProb
    rw [div_lt_one (by positivity)]
    linarith
  · unfold controlProb
    have hx : Real.exp (-(a - h)) = (Real.exp (-(h - a)))⁻¹ := by
      rw [← Real.exp_neg]
      ring_nf
    rw [hx]
    have d1 : (1 : ℝ) + Real.exp (-(h - a)) ≠ 0 := by positivity
    have d2 : Real.exp (-(h - a)) ≠ 0 := ne_of_gt e1
    field_simp
    ring

/-- Claim C5 counterexample: with a single home player of (spec-conforming)
influence 1 and an empty away team, the control probability of the code's
logistic transform is not 1.0. -/
theorem single_team_control_counterexample :
    controlProb (teamInfluence (fun _ _ _ => (1 : ℝ)) [()] (0, 0) (0, 0))
        (teamInfluence (fun _ _ _ => (1 : ℝ)) ([] : List Unit) (0, 0) (0, 0)) ≠ 1 := by
  have h1 : teamInfluence (fun _ _ _ => (1 : ℝ)) [()] (0, 0) (0, 0) = 1 := by
    norm_num [teamInfluence]
  have h0 : teamInfluence (fun _ _ _ => (1 : ℝ)) ([] : List Unit) (0, 0) (0, 0) = 0 := rfl
  rw [h1, h0]
  unfold controlProb
  intro hcontra
  rw [div_eq_one_iff_eq (by positivity)] at hcontra
  have := Real.exp_pos (-(1 - 0 : ℝ))
  linarith

/-- Claim C5 (amended): for a frame with one home player and zero away
players, the away influence aggregates to 0 and the control probability is
1 / (1 + exp(-influence_home)); the denominator is strictly positive (no
division by zero) and the probability is at least 1/2 but strictly below 1.0
for any spec-conforming influence function bounded in the range 0 to 1. -/
theorem single_team_control_amended {α : Type} (f : α → Vec2 → Vec2 → ℝ)
    (hf : ∀ p q b, 0 ≤ f p q b ∧ f p q b ≤ 1) (p : α) (q b : Vec2) :
    teamInfluence f ([] : List α) q b = 0
  ∧ 0 < 1 + Real.exp (-(teamInfluence f [p] q b - teamInfluence f ([] : List α) q b))
  ∧ 1 / 2 ≤ controlProb (teamInfluence f [p] q b) (teamInfluence f ([] : List α) q b)
  ∧ controlProb (teamInfluence f [p] q b) (teamInfluence f ([] : List α) q b) < 1 := by
  have h0 : teamInfluence f ([] : List α) q b = 0 := rfl
  have h1 : teamInfluence f [p] q b = f p q b := by
    simp only [teamInfluence, List.map_cons, List.map_nil, List.foldr_cons, List.foldr_nil]
    exact max_eq_left (hf p q b).1
  have hexp : (0 : ℝ) < Real.exp (-(f p q b - 0)) := Real.exp_pos _
  have hle1 : Real.exp (-(f p q b - 0)) ≤ 1 := by
    rw [Real.exp_le_one_iff]
    have := (hf p q b).1
    linarith
  refine ⟨h0, ?_, ?_, ?_⟩
  · rw [h0, h1]; positivity
  · rw [h0, h1]
    unfold controlProb
    rw [div_le_div_iff₀ (by norm_num) (by positivity)]
    linarith
  · rw [h0, h1]
    unfold controlProb
    rw [div_lt_one (by positivity)]
    linarith

/-- Witness for the amended claim C5 with the constant influence kernel 1/2. -/
theorem single_team_control_amended_w :
    (∀ (p : Unit) (q b : Vec2),
        0 ≤ (fun (_ : Unit) (_ _ : Vec2) => (1 : ℝ) / 2) p q b
        ∧ (fun (_ : Unit) (_ _ : Vec2) => (1 : ℝ) / 2) p q b ≤ 1)
  ∧ (teamInfluence (fun (_ : Unit) (_ _ : Vec2) => (1 : ℝ) / 2) ([] : List Unit) (0, 0) (0, 0) = 0
     ∧ 0 < 1 + Real.exp (-(teamInfluence (fun (_ : Unit) (_ _ : Vec2) => (1 : ℝ) / 2) [()] (0, 0) (0, 0)
              - teamInfluence (fun (_ : Unit) (_ _ : Vec2) => (1 : ℝ) / 2) ([] : List Unit) (0, 0) (0, 0)))
     ∧ 1 / 2 ≤ controlProb (teamInfluence (fun (_ : Unit) (_ _ : Vec2) => (1 : ℝ) / 2) [()] (0, 0) (0, 0))
          (teamInfluence (fun (_ : Unit) (_ _ : Vec2) => (1 : ℝ) / 2) ([] : List Unit) (0, 0) (0, 0))
     ∧ controlProb (teamInfluence (fun (_ : Unit) (_ _ : Vec2) => (1 : ℝ) / 2) [()] (0, 0) (0, 0))
          (teamInfluence (fun (_ : Unit) (_ _ : Vec2) => (1 : ℝ) / 2) ([] : List Unit) (0, 0) (0, 0)) < 1) :=
  ⟨fun _ _ _ => by norm_num,
   single_team_control_amended (fun _ _ _ => (1 : ℝ) / 2)
     (fun _ _ _ => by norm_num) () (0, 0) (0, 0)⟩

/-- Claim C6: wyscout_to_meters maps raw (x, y) to
((x/100 - 0.5) * length, (0.5 - y/100) * width); on the 105 by 68 pitch the
raw points (25, 50) and (75, 50) map to (-26.25, 0) and (26.25, 0). -/
theorem wyscoutToMeters_formula (cfg : PitchConfig) (x y : ℚ) :
    wyscoutToMeters cfg x y = ((x / 100 - 1 / 2) * cfg.length, (1 / 2 - y / 100) * cfg.width)
  ∧ wyscoutToMeters (stdPitch 1 true) 25 50 = (-105 / 4, 0)
  ∧ wyscoutToMeters (stdPitch 1 true) 75 50 = (105 / 4, 0) := by
  refine ⟨rfl, ?_, ?_⟩ <;>
    · norm_num [wyscoutToMeters, stdPitch, Prod.ext_iff]

/-- Claim C7: in the conversion branch of convert_and_separate, a row whose
flip flag holds (home rows in half 2, away rows in half 1) has both of its
0-100 coordinates inverted to (100 - x, 100 - y) before the final clip, and a
row whose flag does not hold passes through the flip step unchanged. -/
theorem hawkeyeConvertRow_flip (L W : ℚ) (isHome : Bool) (half : ℤ) (x y : ℚ) :
    ((isHome = true ∧ half = 2) ∨ (isHome = false ∧ half = 1) →
      hawkeyeConvertRow L W isHome half x y
        = (clip01 (100 - hawkeyeWsX L x), clip01 (100 - hawkeyeWsY W y)))
  ∧ (¬ ((isHome = true ∧ half = 2) ∨ (isHome = false ∧ half = 1)) →
      hawkeyeConvertRow L W isHome half x y
        = (clip01 (hawkeyeWsX L x), clip01 (hawkeyeWsY W y))) := by
  constructor
  · rintro (⟨hh, h2⟩ | ⟨hh, h1⟩)
    · subst hh; simp [hawkeyeConvertRow, flipFlag, h2]
    · subst hh; simp [hawkeyeConvertRow, flipFlag, h1]
  · intro hn
    have hflag : flipFlag isHome half = false := by
      cases isHome with
      | false =>
        have : ¬ half = 1 := fun he => hn (Or.inr ⟨rfl, he⟩)
        simp [flipFlag, this]
      | true =>
        have : ¬ half = 2 := fun he => hn (Or.inl ⟨rfl, he⟩)
        simp [flipFlag, this]
    simp [hawkeyeConvertRow, hflag]

/-- Witness for claim C7: a home row in half 2 on the 105 by 68 pitch. -/
theorem hawkeyeConvertRow_flip_w :
    ((true = true ∧ (2 : ℤ) = 2) ∨ (true = false ∧ (2 : ℤ) = 1))
  ∧ hawkeyeConvertRow 105 68 true 2 0 0
      = (clip01 (100 - hawkeyeWsX 105 0), clip01 (100 - hawkeyeWsY 68 0)) :=
  ⟨Or.inl ⟨rfl, rfl⟩, (hawkeyeConvertRow_flip 105 68 true 2 0 0).1 (Or.inl ⟨rfl, rfl⟩)⟩

/-- A key present in the dot map survives processing one frame. -/
theorem mem_processFrame_of_mem :
    ∀ (players : List PlayerRec) (m : List (String × ℤ)) (k : String × ℤ),
      k ∈ m → k ∈ processFrame m players := by
  intro players
  induction players with
  | nil => intro m k hk; exact hk
  | cons p ps ih =>
    intro m k hk
    have hstep : processFrame m (p :: ps)
        = processFrame (if dotsKey p ∈ m then m else m ++ [dotsKey p]) ps := rfl
    rw [hstep]
    by_cases hmem : dotsKey p ∈ m
    · rw [if_pos hmem]; exact ih m k hk
    · rw [if_neg hmem]; exact ih _ k (List.mem_append_left _ hk)

/-- Every player of a processed frame has its key in the resulting dot map. -/
theorem key_mem_processFrame :
    ∀ (players : List PlayerRec) (m : List (String × ℤ)) (p : PlayerRec),
      p ∈ players → dotsKey p ∈ processFrame m players := by
  intro players
  induction players with
  | nil => intro m p hp; cases hp
  | cons q ps ih =>
    intro m p hp
    have hstep : processFrame m (q :: ps)
        = processFrame (if dotsKey q ∈ m then m else m ++ [dotsKey q]) ps := rfl
    rcases List.mem_cons.mp hp with h | h
    · subst h
      rw [hstep]
      by_cases hmem : dotsKey p ∈ m
      · rw [if_pos hmem]; exact mem_processFrame_of_mem ps m _ hmem
      · rw [if_neg hmem]
        exact mem_processFrame_of_mem ps _ _
          (List.mem_append_right _ (List.mem_singleton.mpr rfl))
    · rw [hstep]; exact ih _ p h

/-- A key present in the dot map survives the whole animation loop. -/
theorem mem_runAnimation_of_mem :
    ∀ (frames : List (List PlayerRec)) (dots : List (String × ℤ)) (k : String × ℤ),
      k ∈ dots → k ∈ runAnimation dots frames := by
  intro frames
  induction frames with
  | nil => intro dots k hk; exact hk
  | cons f fs ih =>
    intro dots k hk
    exact ih (processFrame dots f) k (mem_processFrame_of_mem f dots k hk)

/-- Every key of a player of any processed frame is in the final dot map. -/
theorem key_mem_runAnimation :
    ∀ (frames : List (List PlayerRec)) (dots : List (String × ℤ))
      (fr : List PlayerRec) (p : PlayerRec),
      fr ∈ frames → p ∈ fr → dotsKey p ∈ runAnimation dots frames := by
  intro frames
  induction frames with
  | nil => intro dots fr p hfr _; cases hfr
  | cons f fs ih =>
    intro dots fr p hfr hp
    have hrun : runAnimation dots (f :: fs) = runAnimation (processFrame dots f) fs := rfl
    rw [hrun]
    rcases List.mem_cons.mp hfr with h | h
    · subst h
      exact mem_runAnimation_of_mem fs _ _ (key_mem_processFrame fr dots p hp)
    · exact ih (processFrame dots f) fr p h hp

/-- Claim C8: across the animation loop the entity-to-handle map only gains
entries: every key present initially is still present at the end, and every
(team, id) key seen in any processed frame is present at the end (registered
when first seen, never removed). -/
theorem runAnimation_monotone (dots : List (String × ℤ)) (frames : List (List PlayerRec)) :
    (∀ k, k ∈ dots → k ∈ runAnimation dots frames)
  ∧ ∀ fr, fr ∈ frames → ∀ p, p ∈ fr → dotsKey p ∈ runAnimation dots frames := by
  constructor
  · intro k hk; exact mem_runAnimation_of_mem frames dots k hk
  · intro fr hfr p hp
    exact key_mem_runAnimation frames dots fr p hfr hp

/-- Witness for claim C8: one pre-registered key and one new player. -/
theorem runAnimation_monotone_w :
    (("attack", (1 : ℤ)) ∈ [("attack", (1 : ℤ))]
      ∧ ("attack", (1 : ℤ))
          ∈ runAnimation [("attack", (1 : ℤ))] [[⟨"defense", 2, 0, 0⟩]])
  ∧ ((⟨"defense", 2, 0, 0⟩ : PlayerRec) ∈ [(⟨"defense", 2, 0, 0⟩ : PlayerRec)]
      ∧ dotsKey ⟨"defense", 2, 0, 0⟩
          ∈ runAnimation [("attack", (1 : ℤ))] [[⟨"defense", 2, 0, 0⟩]]) :=
  ⟨⟨List.mem_singleton.mpr rfl,
    (runAnimation_monotone [("attack", (1 : ℤ))] [[⟨"defense", 2, 0, 0⟩]]).1 _
      (List.mem_singleton.mpr rfl)⟩,
   ⟨List.mem_singleton.mpr rfl,
    (runAnimation_monotone [("attack", (1 : ℤ))] [[⟨"defense", 2, 0, 0⟩]]).2 _
      (List.mem_singleton.mpr rfl) _ (List.mem_singleton.mpr rfl)⟩⟩

/-- The last element of a nonempty list through the optional-last view. -/
theorem getLast?_cons_or {α : Type} (a : α) :
    ∀ (l : List α), (a :: l).getLast? = l.getLast?.or (some a) := by
  intro l
  induction l generalizing a with
  | nil => rfl
  | cons b l ih =>
    rw [List.getLast?_cons_cons, ih b]
    cases l.getLast? <;> rfl

/-- Accumulator form of the get_frame_data fold. -/
theorem getFrameData_foldl_aux :
    ∀ (rows : List TRow) (ps : List PlayerRec) (ob : Option Vec2),
      rows.foldl
          (fun acc r =>
            if r.team.trim.toLower = "attack" ∨ r.team.trim.toLower = "defense" then
              (acc.1 ++ [⟨r.team.trim.toLower, r.player, (r.x, r.y)⟩], acc.2)
            else (acc.1, some (r.x, r.y)))
          (ps, ob)
        = (ps ++ (rows.filter isTeamRow).map mkPlayer,
           (((rows.filter (fun r => ! isTeamRow r)).map ballOf).getLast?).or ob) := by
  intro rows
  induction rows with
  | nil => intro ps ob; simp
  | cons r rows ih =>
    intro ps ob
    by_cases h : r.team.trim.toLower = "attack" ∨ r.team.trim.toLower = "defense"
    · have hb : isTeamRow r = true := by
        simp only [isTeamRow, Bool.or_eq_true, beq_iff_eq]
        exact h
      rw [List.foldl_cons, if_pos h, ih]
      rw [List.filter_cons, if_pos hb]
      have hb2 : (! isTeamRow r) = false := by rw [hb]; rfl
      rw [List.filter_cons, hb2]
      simp [mkPlayer]
    · have hb : isTeamRow r = false := by
        simp only [isTeamRow, Bool.or_eq_false_iff, beq_eq_false_iff_ne, ne_eq]
        constructor
        · intro he; exact h (Or.inl he)
        · intro he; exact h (Or.inr he)
      rw [List.foldl_cons, if_neg h, ih]
      rw [List.filter_cons, hb]
      have hb2 : (! isTeamRow r) = true := by rw [hb]; rfl
      rw [List.filter_cons, if_pos hb2]
      rw [List.map_cons, getLast?_cons_or, Option.or_assoc]
      rfl

/-- Claim C9: get_frame_data classifies a row as a player exactly when its
stripped, lowercased team equals attack or defense (kept in iteration order);
every other row is excluded from the player list and instead overwrites the
ball position, so the reported ball is the last such row in iteration order
(none when no such row exists). -/
theorem getFrameData_characterization (rows : List TRow) :
    (getFrameData rows).1 = (rows.filter isTeamRow).map mkPlayer
  ∧ (getFrameData rows).2 = ((rows.filter (fun r => ! isTeamRow r)).map ballOf).getLast? := by
  have h := getFrameData_foldl_aux rows [] none
  unfold getFrameData
  rw [h]
  constructor
  · simp
  · cases ((rows.filter (fun r => ! isTeamRow r)).map ballOf).getLast? <;> rfl
